import Mathlib

/-!
Verification of the template-resolution and layout-projection engine of the
FastAPI Multi-Architecture Scaffolder (`foundry.py`).

Paths are modelled as lists of segments (`List String`); file contents as
`String` values manipulated through executable character-level primitives
that mirror the Python string operations used by the source
(`str.replace`, `str.split`, `str.strip`, `str.lower`, `str.capitalize`,
`string.Template.safe_substitute`, `pathlib.PurePath.with_suffix`).
-/

/-- Python whitespace set used by `str.strip()` (ASCII portion). -/
def pyWhitespace (c : Char) : Bool :=
  c = ' ' || c = '\t' || c = '\n' || c = '\r' || c = '\x0b' || c = '\x0c'

/-- `str.strip()` on a character list: drop whitespace at both ends. -/
def pyStripChars (cs : List Char) : List Char :=
  ((cs.dropWhile pyWhitespace).reverse.dropWhile pyWhitespace).reverse

/-- Python `str.strip()`. -/
def pyStrip (s : String) : String := ⟨pyStripChars s.data⟩

/-- Auxiliary for splitting a character list on a separator character. -/
def splitOnCharAux (sep : Char) : List Char → List Char → List (List Char)
  | acc, [] => [acc.reverse]
  | acc, c :: rest =>
      if c = sep then acc.reverse :: splitOnCharAux sep [] rest
      else splitOnCharAux sep (c :: acc) rest

/-- Python `str.split(sep)` for a one-character separator
(keeps empty pieces, as Python does). -/
def pySplitChar (s : String) (sep : Char) : List String :=
  (splitOnCharAux sep [] s.data).map (fun cs => ⟨cs⟩)

/-- Python `str.lower()` (ASCII). -/
def pyLower (s : String) : String := ⟨s.data.map Char.toLower⟩

/-- Fuel-driven model of Python `str.replace(pat, rep)`:
replaces all non-overlapping occurrences left to right in one pass,
never rescanning replacement text.  The fuel is always instantiated to
the length of the scanned text, which bounds the recursion depth. -/
def replaceAllF (pat rep : List Char) : Nat → List Char → List Char
  | _, [] => []
  | 0, s => s
  | f + 1, c :: rest =>
      if pat ≠ [] ∧ pat.isPrefixOf (c :: rest) then
        rep ++ replaceAllF pat rep f (rest.drop (pat.length - 1))
      else
        c :: replaceAllF pat rep f rest

/-- Python `s.replace(pat, rep)`. -/
def pyReplace (s pat rep : String) : String :=
  ⟨replaceAllF pat.data rep.data s.data.length s.data⟩

/-- Fuel-driven count of non-overlapping occurrences of `pat`, scanning left
to right — the number of matches Python `str.replace`/`in` would find. -/
def countOccF (pat : List Char) : Nat → List Char → Nat
  | _, [] => 0
  | 0, _ => 0
  | f + 1, c :: rest =>
      if pat ≠ [] ∧ pat.isPrefixOf (c :: rest) then
        1 + countOccF pat f (rest.drop (pat.length - 1))
      else
        countOccF pat f rest

/-- Number of non-overlapping occurrences of `pat` in `s`. -/
def countOcc (s pat : String) : Nat := countOccF pat.data s.data.length s.data

/-- Python `pat in s` (substring test) for non-empty patterns. -/
def pyContains (s pat : String) : Bool := decide (0 < countOcc s pat)

-- ---------------------------------------------------------------------------
-- Context Normalizer (`_normalize_contexts`)
-- ---------------------------------------------------------------------------

/-- `push_many` in `_normalize_contexts`: split a raw flag value on commas,
strip whitespace from each piece, drop empty pieces. -/
def splitTokens (raw : String) : List String :=
  ((pySplitChar raw ',').map pyStrip).filter (fun p => p ≠ "")

/-- De-duplication loop of `_normalize_contexts` (`seen` set plus `uniq`
output list, first occurrence wins). -/
def dedupGo (seen : List String) : List String → List String
  | [] => []
  | c :: rest =>
      if c ∈ seen then dedupGo seen rest else c :: dedupGo (c :: seen) rest

/-- De-duplicate a list of strings preserving first occurrences. -/
def dedupFirst (l : List String) : List String := dedupGo [] l

/-- The `out` list of `_normalize_contexts` before the default is applied:
every `--context` token and the `--contexts` flag, each split on commas,
stripped and filtered, in order. -/
def rawContextTokens (contextTokens : List String) (contextsFlag : Option String) :
    List String :=
  (contextTokens.map splitTokens).flatten ++
    (match contextsFlag with
     | some r => splitTokens r
     | none => [])

/-- `out` after the `if not out: out = ["customer"]` default of
`_normalize_contexts`. -/
def defaultedTokens (contextTokens : List String) (contextsFlag : Option String) :
    List String :=
  if rawContextTokens contextTokens contextsFlag = [] then ["customer"]
  else rawContextTokens contextTokens contextsFlag

/-- `_normalize_contexts`: strip, replace spaces with underscores, lowercase,
then de-duplicate preserving first occurrence. -/
def normalizeContexts (contextTokens : List String) (contextsFlag : Option String) :
    List String :=
  dedupFirst ((defaultedTokens contextTokens contextsFlag).map
    (fun c => pyLower (pyReplace (pyStrip c) " " "_")))

-- Helper lemmas about the de-duplication loop.

theorem dedupGo_not_mem_seen :
    ∀ (l seen : List String) (x : String), x ∈ dedupGo seen l → x ∉ seen := by
  intro l
  induction l with
  | nil => intro seen x hx; simp [dedupGo] at hx
  | cons c rest ih =>
    intro seen x hx
    by_cases hc : c ∈ seen
    · rw [dedupGo, if_pos hc] at hx
      exact ih seen x hx
    · rw [dedupGo, if_neg hc] at hx
      rcases List.mem_cons.mp hx with rfl | hx
      · exact hc
      · intro hmem
        exact ih (c :: seen) x hx (List.mem_cons_of_mem c hmem)

theorem dedupGo_nodup : ∀ (l seen : List String), (dedupGo seen l).Nodup := by
  intro l
  induction l with
  | nil => intro seen; simp [dedupGo]
  | cons c rest ih =>
    intro seen
    by_cases hc : c ∈ seen
    · rw [dedupGo, if_pos hc]; exact ih seen
    · rw [dedupGo, if_neg hc]
      refine List.nodup_cons.mpr ⟨?_, ih (c :: seen)⟩
      intro hmem
      exact dedupGo_not_mem_seen rest (c :: seen) c hmem (List.mem_cons_self c seen)

theorem dedupFirst_nodup (l : List String) : (dedupFirst l).Nodup :=
  dedupGo_nodup l []

theorem dedupFirst_ne_nil (l : List String) (h : l ≠ []) : dedupFirst l ≠ [] := by
  cases l with
  | nil => exact absurd rfl h
  | cons c rest =>
    rw [dedupFirst, dedupGo]
    simp

theorem defaultedTokens_ne_nil (t : List String) (f : Option String) :
    defaultedTokens t f ≠ [] := by
  rw [defaultedTokens]
  split
  · simp
  · assumption

/-- C2: the Context Normalizer splits on commas, trims, drops empties,
lowercases, replaces internal spaces with underscore and de-duplicates
preserving first occurrence; an empty input yields the single default
context `customer`; the result is always a non-empty duplicate-free list
(the operation never fails); in particular `["b","a,b","a"]` yields
`["b","a"]`. -/
theorem normalize_contexts_spec (toks : List String) (flag : Option String) :
    normalizeContexts ["b", "a,b", "a"] none = ["b", "a"] ∧
    normalizeContexts [] none = ["customer"] ∧
    normalizeContexts ["my Order", "MY ORDER"] none = ["my_order"] ∧
    normalizeContexts toks flag ≠ [] ∧
    (normalizeContexts toks flag).Nodup := by
  refine ⟨by decide, by decide, by decide, ?_, dedupFirst_nodup _⟩
  apply dedupFirst_ne_nil
  simp only [ne_eq, List.map_eq_nil_iff]
  exact defaultedTokens_ne_nil toks flag

-- ---------------------------------------------------------------------------
-- Path model (`pathlib` suffix handling, `_remap_dst_rel_for_package`)
-- ---------------------------------------------------------------------------

/-- Scan a reversed file name for the first dot, i.e. the last dot of the
original name; `some r` returns the reversed stem, valid only when the
part before the dot is non-empty (`pathlib` treats a leading dot as part
of the stem, not a suffix separator). -/
def dropExtRevAux : List Char → Option (List Char)
  | [] => none
  | c :: rest =>
      if c = '.' then (if rest.isEmpty then none else some rest)
      else dropExtRevAux rest

/-- `pathlib` suffix detection on a reversed name: a name ending in a dot has
no suffix (the last-dot index must be strictly inside the name). -/
def dropExtRev (r : List Char) : Option (List Char) :=
  match r with
  | [] => none
  | c :: rest => if c = '.' then none else dropExtRevAux (c :: rest)

/-- `PurePath.with_suffix("")` applied to one name: strip the last suffix if
the name has one, otherwise leave it unchanged. -/
def stripExtChars (cs : List Char) : List Char :=
  match dropExtRev cs.reverse with
  | some stemRev => stemRev.reverse
  | none => cs

/-- `with_suffix("")` on a file name. -/
def stripExt (s : String) : String := ⟨stripExtChars s.data⟩

/-- Does a name carry a `pathlib` suffix (`dst.suffix != ""`)? -/
def hasExtName (s : String) : Bool := (dropExtRev s.data.reverse).isSome

/-- Apply a function to the last segment of a relative path. -/
def mapLast (f : String → String) : List String → List String
  | [] => []
  | [x] => [f x]
  | x :: xs => x :: mapLast f xs

/-- `TOP_LEVEL_DIRS` of the source. -/
def topLevelDirs : List String := ["docs", "scripts", "tests", ".github"]

/-- `TOP_LEVEL_FILES` of the source. -/
def topLevelFiles : List String :=
  ["Dockerfile", "docker-compose.yml", ".env", ".env.example", ".gitignore",
   ".dockerignore", "pyproject.toml", "requirements.txt", "README.md",
   "LICENSE", "CHANGELOG.md", "CONTRIBUTING.md", "Conventions.md",
   "ISSUE_TEMPLATE.md", "PULL_REQUEST_TEMPLATE.md", "pytest.ini",
   "requirements.bootstrap.txt", ".pre-commit-config.yaml"]

/-- `base_name[:-5] if base_name.endswith(".tmpl") else base_name`. -/
def stripTmplName (name : String) : String :=
  if ".tmpl".data.isSuffixOf name.data then ⟨name.data.take (name.data.length - 5)⟩
  else name

/-- `_remap_dst_rel_for_package` on a path given as a list of segments,
mirroring the rule order of the source: the `src/app/` and `app/` prefix
rewrites (which require at least one further segment, as the string
comparisons use a trailing slash), then insertion of the package under a
foreign `src/<X>`, then the reserved top-level allowlist, then the default
nesting under `src/<package>/`. -/
def remapDstRelForPackage (rel : List String) (pkg : String) : List String :=
  match rel with
  | "src" :: "app" :: seg :: rest => "src" :: pkg :: seg :: rest
  | "app" :: seg :: rest => "src" :: pkg :: seg :: rest
  | _ =>
      if 2 ≤ rel.length ∧ rel.headD "" = "src" ∧ rel.getD 1 "" ≠ pkg then
        "src" :: pkg :: rel.tail
      else if rel ≠ [] ∧ (rel.headD "" ∈ topLevelDirs ∨
          stripTmplName (rel.getLastD "") ∈ topLevelFiles) then
        rel
      else
        "src" :: pkg :: rel

/-- `_apply_ctx_in_path`: strip the last suffix of the template path
(`rel.with_suffix("")`), then substitute the context for every
occurrence of the placeholder (the placeholder contains no slash, so the
whole-string replacement acts segment-wise). -/
def applyCtxInPath (rel : List String) (ctx : String) : List String :=
  (mapLast stripExt rel).map (fun seg => pyReplace seg "${context}" ctx)

/-- Does the relative path contain the context placeholder
(`"${context}" in str(rel)`)? -/
def hasCtxPlaceholder (rel : List String) : Bool :=
  rel.any (fun seg => pyContains seg "${context}")

/-- Destination computed by `_render_for_each_context` for one template:
with a context (fan-out branch) the path is context-substituted (which also
strips the template suffix), remapped, and suffix-stripped once more;
without a context it is remapped as-is and suffix-stripped once. -/
def destRel (rel : List String) (pkg : String) (ctx : Option String) : List String :=
  match ctx with
  | some c => mapLast stripExt (remapDstRelForPackage (applyCtxInPath rel c) pkg)
  | none => mapLast stripExt (remapDstRelForPackage rel pkg)

-- ---------------------------------------------------------------------------
-- Substitution post-processing (`render_file` extension coercion)
-- ---------------------------------------------------------------------------

/-- `_is_top_level_file`: destination directly at the project root with a
name in the reserved allowlist. -/
def isTopLevelFileRel (dstRel : List String) : Bool :=
  match dstRel with
  | [name] => name ∈ topLevelFiles
  | _ => false

/-- Is the destination inside `src/<package>/**`
(at least three segments, first `src`, second the package)? -/
def inSrcPackage (dstRel : List String) (pkg : String) : Bool :=
  match dstRel with
  | "src" :: p :: _ :: _ => p == pkg
  | _ => false

/-- The `force_py` decision of `render_file`: the destination has no
extension, the rendered content looks like Python (taken as an input, the
classifier's verdict), the destination is not a reserved top-level file,
and it falls under `src/<package>/**`. -/
def forcePyDecision (dstRel : List String) (looksPy : Bool) (pkg : String) : Bool :=
  match dstRel.getLast? with
  | none => false
  | some name =>
      !(hasExtName name) && looksPy && !(isTopLevelFileRel dstRel)
        && inSrcPackage dstRel pkg

/-- `dst = dst.with_suffix(".py")` when coercion fires. -/
def coerceDst (dstRel : List String) (force : Bool) : List String :=
  if force then mapLast (fun n => stripExt n ++ ".py") dstRel else dstRel

-- ---------------------------------------------------------------------------
-- C1 / C6: Path Projector theorems
-- ---------------------------------------------------------------------------

/-- C1: every template path beginning with the bare `app/` segment is
rewritten by the Path Projector to `src/<package>/` with the remaining
structure preserved; Scenario B: `app/domain/${context}/entities.tmpl`
with context `order` and package `shop` projects to
`src/shop/domain/order/entities`, a destination that is eligible for
extension coercion by the post-processor. -/
theorem path_projector_app_rewrite (pkg seg : String) (rest : List String) :
    remapDstRelForPackage ("app" :: seg :: rest) pkg = "src" :: pkg :: seg :: rest ∧
    destRel ["app", "domain", "${context}", "entities.tmpl"] "shop" (some "order") =
      ["src", "shop", "domain", "order", "entities"] ∧
    forcePyDecision ["src", "shop", "domain", "order", "entities"] true "shop" = true := by
  refine ⟨rfl, by decide, by decide⟩

/-- C6: a root-level `LICENSE.tmpl` is left unchanged by the Path Projector
for every package identifier (reserved-allowlist rule), lands at the
project root as `LICENSE`, and the extension-coercion decision is `false`
for it regardless of the content classifier's verdict. -/
theorem license_stays_top_level (pkg : String) (looksPy : Bool) :
    remapDstRelForPackage ["LICENSE.tmpl"] pkg = ["LICENSE.tmpl"] ∧
    destRel ["LICENSE.tmpl"] pkg none = ["LICENSE"] ∧
    forcePyDecision ["LICENSE"] looksPy pkg = false := by
  have hmain : remapDstRelForPackage ["LICENSE.tmpl"] pkg = ["LICENSE.tmpl"] := by
    show (if 2 ≤ (["LICENSE.tmpl"] : List String).length ∧
            (["LICENSE.tmpl"] : List String).headD "" = "src" ∧
            (["LICENSE.tmpl"] : List String).getD 1 "" ≠ pkg then
          "src" :: pkg :: (["LICENSE.tmpl"] : List String).tail
        else if (["LICENSE.tmpl"] : List String) ≠ [] ∧
            ((["LICENSE.tmpl"] : List String).headD "" ∈ topLevelDirs ∨
              stripTmplName ((["LICENSE.tmpl"] : List String).getLastD "") ∈ topLevelFiles) then
          ["LICENSE.tmpl"]
        else "src" :: pkg :: ["LICENSE.tmpl"]) = ["LICENSE.tmpl"]
    rw [if_neg, if_pos]
    · exact ⟨by decide, by decide⟩
    · intro h
      exact absurd h.1 (by decide)
  refine ⟨hmain, ?_, ?_⟩
  · show mapLast stripExt (remapDstRelForPackage ["LICENSE.tmpl"] pkg) = ["LICENSE"]
    rw [hmain]
    decide
  · show (!(hasExtName "LICENSE") && looksPy && !(isTopLevelFileRel ["LICENSE"])
        && inSrcPackage ["LICENSE"] pkg) = false
    have h1 : isTopLevelFileRel ["LICENSE"] = true := by decide
    have h2 : inSrcPackage ["LICENSE"] pkg = false := rfl
    rw [h1, h2]
    simp

-- ---------------------------------------------------------------------------
-- Variable Assembler (`_build_shared_uow_strings`) and fan-out environment
-- ---------------------------------------------------------------------------

/-- Python `str.capitalize()`: first character uppercased, the rest
lowercased (ASCII). -/
def pyCapitalize (s : String) : String :=
  match s.data with
  | [] => ""
  | c :: rest => ⟨c.toUpper :: rest.map Char.toLower⟩

/-- The `Cap` helper of `_build_shared_uow_strings`: capitalize each
underscore-delimited part and concatenate. -/
def capWords (s : String) : String :=
  String.join ((pySplitChar s '_').map pyCapitalize)

/-- The `prop` helper of `_build_shared_uow_strings`: append `s` unless the
name already ends in `s`. -/
def propName (s : String) : String :=
  if ['s'].isSuffixOf s.data then s else s ++ "s"

/-- The `uow_properties` fragment of `_build_shared_uow_strings`: one
property line per (de-duplicated) context, in order. -/
def uowProperties (contexts : List String) : String :=
  String.join ((dedupFirst contexts).map
    (fun c => "    " ++ propName c ++ ": " ++ capWords c ++ "Repository\n"))

/-- The `domain_repo_imports` fragment: one import line per context,
joined with newlines. -/
def domainRepoImports (module : String) (contexts : List String) : String :=
  String.intercalate "\n" ((dedupFirst contexts).map
    (fun c => "from " ++ module ++ ".domain." ++ c ++ ".repositories import "
      ++ capWords c ++ "Repository"))

/-- Python-dict lookup on an association list (first binding wins, so a
prepended binding overrides a later one the way `base | {k: v}` does). -/
def lookupEnv (env : List (String × String)) (k : String) : Option String :=
  match env with
  | [] => none
  | (a, b) :: t => if k = a then some b else lookupEnv t k

/-- The environment extension performed by the fan-out branch of
`_render_for_each_context`: `base_vars | {"context": ctx, "ContextCap":
ctx.capitalize()}`. -/
def renderEnvForContext (baseVars : List (String × String)) (ctx : String) :
    List (String × String) :=
  ("context", ctx) :: ("ContextCap", pyCapitalize ctx) :: baseVars

/-- C3: for contexts `["customer","order"]` the unit-of-work property block
is exactly one `customers: CustomerRepository` line followed by one
`orders: OrderRepository` line, in context order (pluralization appends
`s`, the type name title-cases underscore-delimited words); the fragment
does not depend on the architecture, so it is the block used for the
hybrid architecture as well. -/
theorem uow_property_block_scenario :
    uowProperties ["customer", "order"] =
      "    customers: CustomerRepository\n    orders: OrderRepository\n" ∧
    propName "my_order" = "my_orders" ∧ capWords "my_order" = "MyOrder" := by
  refine ⟨by decide, by decide, by decide⟩

/-- The original C5 claim is false on the code: the fan-out renderer sets
`ContextCap` with Python `str.capitalize()`, so for the context `my_order`
the environment holds `My_order`, not the title-cased `MyOrder` that the
`Cap` helper of the Variable Assembler would produce. -/
theorem context_cap_counterexample :
    lookupEnv (renderEnvForContext [] "my_order") "ContextCap" = some "My_order" ∧
    capWords "my_order" = "MyOrder" ∧
    lookupEnv (renderEnvForContext [] "my_order") "ContextCap" ≠
      some (capWords "my_order") := by
  refine ⟨by decide, by decide, by decide⟩

/-- C5 (amended): for every context selected during fan-out, the
`ContextCap` value placed in the extended environment equals Python
`str.capitalize()` of the context — first character uppercased, remaining
characters lowercased — which agrees with the title-cased identifier only
for single-word context names; `context` is bound to the context itself. -/
theorem context_cap_is_py_capitalize (base : List (String × String)) (ctx : String) :
    lookupEnv (renderEnvForContext base ctx) "ContextCap" = some (pyCapitalize ctx) ∧
    lookupEnv (renderEnvForContext base ctx) "context" = some ctx ∧
    pyCapitalize "my_order" = "My_order" := by
  refine ⟨rfl, rfl, by decide⟩

-- ---------------------------------------------------------------------------
-- Template Walker (`_walk_and_render` / `_emit_arch_neutral`)
-- ---------------------------------------------------------------------------

/-- Does a relative path name a template document (its file name carries the
`.tmpl` marker suffix, the `rglob("*.tmpl")` filter)? -/
def hasTmplSuffix (p : List String) : Bool :=
  match p.getLast? with
  | some n => ".tmpl".data.isSuffixOf n.data
  | none => false

/-- The enumeration performed by `_walk_and_render` and
`_emit_arch_neutral`: `base_dir.rglob("*.tmpl")` yields the entries the
filesystem traversal produces, filtered by the marker pattern, and the
rendering loop consumes them in exactly that order — the source applies no
sorting.  The filesystem enumeration order is the input list. -/
def walkEnumeration (fsEntries : List (List String)) : List (List String) :=
  fsEntries.filter hasTmplSuffix

/-- The original C4 claim is false on the code: when the filesystem yields
`b.tmpl` before `a.tmpl`, the walker processes `b.tmpl` first even though
`a.tmpl` precedes it lexicographically — the loop keeps the natural
enumeration order. -/
theorem walk_order_not_lexicographic :
    walkEnumeration [["b.tmpl"], ["a.tmpl"]] = [["b.tmpl"], ["a.tmpl"]] ∧
    ("a.tmpl" : String) < "b.tmpl" := by
  refine ⟨by decide, ?_⟩
  exact String.lt_iff_toList_lt.mpr (by decide)

/-- C4 (amended): the Template Walker enumerates exactly the documents that
carry the template marker suffix, in the order of the natural filesystem
enumeration (a sub-sequence of it); no lexicographic reordering is
applied. -/
theorem walk_order_follows_enumeration (fsEntries : List (List String)) :
    (walkEnumeration fsEntries).Sublist fsEntries ∧
    ∀ p ∈ walkEnumeration fsEntries, hasTmplSuffix p = true := by
  refine ⟨List.filter_sublist fsEntries, ?_⟩
  intro p hp
  exact List.of_mem_filter hp

/-- Witness for `walk_order_follows_enumeration` at a concrete enumeration. -/
theorem walk_order_follows_enumeration_witness :
    hasTmplSuffix ["a.tmpl"] = true :=
  (walk_order_follows_enumeration [["a.tmpl"], ["b"]]).2 ["a.tmpl"] (by decide)

-- ---------------------------------------------------------------------------
-- C9: destination precondition in `main`
-- ---------------------------------------------------------------------------

/-- The filesystem-mutating phases of `main`, in program order. -/
inductive MainStep where
  | mkdirProjectDirs
  | copyTemplates
  | bootstrap
  | printSummary
deriving DecidableEq

/-- Model of `main` after argument parsing: the single precondition
`project_dir.exists() and any(project_dir.iterdir())` is evaluated once,
before any directory creation or template copying; on failure the process
exits with status 2 having performed no mutation, otherwise the mutating
phases run in order. -/
def mainModel (destExists destNonEmpty : Bool) : Except Nat (List MainStep) :=
  if destExists && destNonEmpty then Except.error 2
  else Except.ok [MainStep.mkdirProjectDirs, MainStep.copyTemplates,
    MainStep.bootstrap, MainStep.printSummary]

/-- C9: when the destination directory exists and is non-empty the run fails
with exit status 2 before any mutation; an absent or empty destination
passes the (single) check and the mutating phases proceed. -/
theorem main_precondition_check (destExists destNonEmpty : Bool) :
    ((destExists && destNonEmpty) = true →
      mainModel destExists destNonEmpty = Except.error 2) ∧
    ((destExists && destNonEmpty) = false →
      mainModel destExists destNonEmpty =
        Except.ok [MainStep.mkdirProjectDirs, MainStep.copyTemplates,
          MainStep.bootstrap, MainStep.printSummary]) := by
  constructor
  · intro h
    simp [mainModel, h]
  · intro h
    simp [mainModel, h]

/-- Witness for `main_precondition_check`: a non-empty existing destination
aborts with exit status 2; an absent destination proceeds to generation. -/
theorem main_precondition_check_witness :
    mainModel true true = Except.error 2 ∧
    mainModel false true =
      Except.ok [MainStep.mkdirProjectDirs, MainStep.copyTemplates,
        MainStep.bootstrap, MainStep.printSummary] :=
  ⟨(main_precondition_check true true).1 (by decide),
   (main_precondition_check false true).2 (by decide)⟩

-- ---------------------------------------------------------------------------
-- Migration Config Patcher (`patch_alembic_env` / `_models_import_path`)
-- ---------------------------------------------------------------------------

/-- `_models_import_path`: architecture-keyed import-path formula for where
generated models live. -/
def modelsImportPath (arch ctx moduleName : String) : String :=
  if arch = "ddd" ∨ arch = "hybrid" then moduleName ++ ".infrastructure." ++ ctx
  else if arch = "hexagonal" then moduleName ++ ".adapters.outbound." ++ ctx
  else moduleName ++ ".models"

/-- Join a list of strings with a separator (Python `sep.join`). -/
def joinSep (sep : String) : List String → String
  | [] => ""
  | [x] => x
  | x :: xs => x ++ sep ++ joinSep sep xs

/-- The text-level patch applied by `patch_alembic_env` to the migration
tool's configuration text: build one model-import line per context, inject
the package import block after every occurrence of the anchor line unless
the package-qualified import line is already present somewhere, then delete
every occurrence of the placeholder assignment line. -/
def patchAlembicContent (arch moduleName : String) (contexts : List String)
    (content : String) : String :=
  let importBlock := joinSep "\n" (contexts.map (fun ctx =>
    "from " ++ modelsImportPath arch ctx moduleName ++ " import models  # noqa: F401"))
  let inject := "from " ++ moduleName ++ ".core.db import Base, engine" ++ "\n"
    ++ importBlock ++ "\n" ++ "target_metadata = Base.metadata\n"
  let withImports :=
    if pyContains content ("from " ++ moduleName ++ ".core.db import Base, engine") then
      content
    else
      pyReplace content "from alembic import context\n"
        ("from alembic import context\n" ++ inject)
  pyReplace withImports "target_metadata = None\n" ""

/-- A representative configuration text as the external migration tool
generates it: the anchor import line appears once, the placeholder
assignment once, and no package-qualified import is present. -/
def alembicBaseEnv : String :=
  "from logging.config import fileConfig\nfrom alembic import context\nconfig = context.config\ntarget_metadata = None\ndef run_migrations_offline():\n    pass\n"

set_option maxRecDepth 40000 in
/-- The original C7 claim (idempotency on arbitrary file content) is false on
the code: deleting the occurrences of `target_metadata = None\n` in one
left-to-right pass can splice together a new occurrence of that very line,
which only a second run removes — so the second run changes the file
again.  The input below is already-patched output (the first application
maps it to exactly the placeholder line), yet the next application maps it
to the empty string. -/
theorem patch_alembic_not_idempotent :
    patchAlembicContent "ddd" "shop" ["order"]
        "target_target_metadata = None\nmetadata = None\n" =
      "target_metadata = None\n" ∧
    patchAlembicContent "ddd" "shop" ["order"] "target_metadata = None\n" = "" ∧
    patchAlembicContent "ddd" "shop" ["order"]
        (patchAlembicContent "ddd" "shop" ["order"]
          "target_target_metadata = None\nmetadata = None\n") ≠
      patchAlembicContent "ddd" "shop" ["order"]
        "target_target_metadata = None\nmetadata = None\n" := by
  refine ⟨by decide, by decide, by decide⟩

set_option maxRecDepth 100000 in
/-- C7 (amended): on the migration tool's generated configuration content —
anchor line present, package-qualified import absent, and the deletion of
the placeholder line not able to splice a new occurrence — applying the
patcher a second time makes no further change, and exactly one injected import
block (identified by its package-qualified first line) is present;
the guard is a substring presence check for that line.  Idempotency does
not extend to arbitrary content (see the counterexample). -/
theorem patch_alembic_idempotent_on_base :
    countOcc alembicBaseEnv "from shop.core.db import Base, engine" = 0 ∧
    countOcc alembicBaseEnv "from alembic import context\n" = 1 ∧
    patchAlembicContent "ddd" "shop" ["order"]
        (patchAlembicContent "ddd" "shop" ["order"] alembicBaseEnv) =
      patchAlembicContent "ddd" "shop" ["order"] alembicBaseEnv ∧
    countOcc (patchAlembicContent "ddd" "shop" ["order"] alembicBaseEnv)
        "from shop.core.db import Base, engine" = 1 ∧
    countOcc (patchAlembicContent "ddd" "shop" ["order"] alembicBaseEnv)
        "target_metadata = None\n" = 0 := by
  refine ⟨by decide, by decide, by decide, by decide, by decide⟩

-- ---------------------------------------------------------------------------
-- C10: double suffix stripping in the fan-out branch
-- ---------------------------------------------------------------------------

theorem replaceAllF_nil (pat rep : List Char) (f : Nat) :
    replaceAllF pat rep f [] = [] := by
  cases f <;> rfl

theorem replaceAllF_no_head (p : Char) (pt rep : List Char) :
    ∀ (f : Nat) (s : List Char), (∀ c ∈ s, c ≠ p) →
      replaceAllF (p :: pt) rep f s = s := by
  intro f
  induction f with
  | zero => intro s h; cases s <;> rfl
  | succ f ih =>
    intro s h
    cases s with
    | nil => rfl
    | cons c rest =>
      have hc : c ≠ p := h c (List.mem_cons_self c rest)
      rw [replaceAllF, if_neg, ih rest (fun d hd => h d (List.mem_cons_of_mem c hd))]
      intro hcon
      have hpre := hcon.2
      rw [List.isPrefixOf_cons₂] at hpre
      have : p = c := by
        have := (Bool.and_eq_true _ _).mp hpre
        exact beq_iff_eq.mp this.1
      exact hc this.symm

theorem isPrefixOf_self (l : List Char) : l.isPrefixOf l = true := by
  induction l with
  | nil => rfl
  | cons c t ih => rw [List.isPrefixOf_cons₂, ih]; simp

theorem replaceAllF_exact (l rep : List Char) (h : l ≠ []) :
    replaceAllF l rep l.length l = rep := by
  cases l with
  | nil => exact absurd rfl h
  | cons p pt =>
    show replaceAllF (p :: pt) rep (pt.length + 1) (p :: pt) = rep
    rw [replaceAllF, if_pos ⟨List.cons_ne_nil p pt, isPrefixOf_self (p :: pt)⟩]
    have hlen : (p :: pt).length - 1 = pt.length := by simp
    rw [hlen, List.drop_length, replaceAllF_nil, List.append_nil]

/-- Replacing the context placeholder in a segment that contains no dollar
sign leaves the segment unchanged. -/
theorem pyReplace_ctx_free (s ctx : String) (h : ∀ c ∈ s.data, c ≠ '$') :
    pyReplace s "${context}" ctx = s := by
  unfold pyReplace
  have hd : "${context}".data = '$' :: "{context}".data := rfl
  rw [hd, replaceAllF_no_head '$' _ _ _ _ h]

/-- Replacing a pattern inside exactly that pattern yields the replacement. -/
theorem pyReplace_exact (pat rep : String) (h : pat.data ≠ []) :
    pyReplace pat pat rep = rep := by
  unfold pyReplace
  rw [replaceAllF_exact pat.data rep.data h]

theorem dropExtRevAux_skip :
    ∀ (l r : List Char), (∀ c ∈ l, c ≠ '.') → r ≠ [] →
      dropExtRevAux (l ++ '.' :: r) = some r := by
  intro l
  induction l with
  | nil =>
    intro r _ hr
    cases r with
    | nil => exact absurd rfl hr
    | cons c t => rfl
  | cons c t ih =>
    intro r h hr
    have hc : c ≠ '.' := h c (List.mem_cons_self c t)
    show dropExtRevAux (c :: (t ++ '.' :: r)) = some r
    rw [dropExtRevAux, if_neg hc]
    exact ih r (fun d hd => h d (List.mem_cons_of_mem c hd)) hr

theorem dropExtRev_concat (l r : List Char) (hl : ∀ c ∈ l, c ≠ '.')
    (hlne : l ≠ []) (hr : r ≠ []) : dropExtRev (l ++ '.' :: r) = some r := by
  cases l with
  | nil => exact absurd rfl hlne
  | cons c t =>
    have hc : c ≠ '.' := hl c (List.mem_cons_self c t)
    show dropExtRev (c :: (t ++ '.' :: r)) = some r
    rw [dropExtRev, if_neg hc]
    exact dropExtRevAux_skip (c :: t) r hl hr

theorem stripExtChars_concat (a b : List Char) (ha : a ≠ []) (hb : b ≠ [])
    (hbd : ∀ c ∈ b, c ≠ '.') : stripExtChars (a ++ '.' :: b) = a := by
  unfold stripExtChars
  have hrev : (a ++ '.' :: b).reverse = b.reverse ++ '.' :: a.reverse := by
    rw [List.reverse_append, List.reverse_cons, List.append_assoc,
      List.singleton_append]
  rw [hrev, dropExtRev_concat b.reverse a.reverse
    (fun c hc => hbd c (List.mem_reverse.mp hc))
    (by simpa using hb) (by simpa using ha)]
  simp

/-- `with_suffix("")` on a name of the form `stem.ext` with a non-empty stem
and a non-empty dot-free extension returns the stem. -/
theorem stripExt_splits (stem ext : String) (hs : stem.data ≠ [])
    (he : ext.data ≠ []) (hed : ∀ c ∈ ext.data, c ≠ '.') :
    stripExt (stem ++ "." ++ ext) = stem := by
  unfold stripExt
  have hdata : (stem ++ "." ++ ext).data = stem.data ++ '.' :: ext.data := by
    show (stem.data ++ ['.']) ++ ext.data = stem.data ++ '.' :: ext.data
    rw [List.append_assoc, List.singleton_append]
  rw [hdata, stripExtChars_concat stem.data ext.data hs he hed]

theorem strAppend_assoc (a b c : String) : a ++ b ++ c = a ++ (b ++ c) := by
  show String.mk ((a.data ++ b.data) ++ c.data) = String.mk (a.data ++ (b.data ++ c.data))
  rw [List.append_assoc]

/-- C10: a context-parameterized template whose file name carries a real
extension before the marker suffix (`stem.ext.tmpl`) has two suffixes
stripped by the fan-out branch — the marker while the context is
substituted into the path, then the real extension when the destination is
formed — so the written destination ends in the bare stem; a template
without the context placeholder in its path has only the marker suffix
stripped. -/
theorem ctx_template_double_suffix_strip (stem ext pkg ctx : String)
    (hstem : stem.data ≠ []) (hext : ext.data ≠ [])
    (hextdot : ∀ c ∈ ext.data, c ≠ '.')
    (hstemdollar : ∀ c ∈ stem.data, c ≠ '$')
    (hextdollar : ∀ c ∈ ext.data, c ≠ '$') :
    destRel ["app", "domain", "${context}", stem ++ "." ++ ext ++ ".tmpl"] pkg
        (some ctx) = ["src", pkg, "domain", ctx, stem] ∧
    destRel ["app", "domain", stem ++ "." ++ ext ++ ".tmpl"] pkg none =
      ["src", pkg, "domain", stem ++ "." ++ ext] := by
  have hXdata : (stem ++ "." ++ ext).data = stem.data ++ '.' :: ext.data := by
    show (stem.data ++ ['.']) ++ ext.data = stem.data ++ '.' :: ext.data
    rw [List.append_assoc, List.singleton_append]
  have hX : (stem ++ "." ++ ext).data ≠ [] := by
    rw [hXdata]; simp
  have hfull : stem ++ "." ++ ext ++ ".tmpl" = (stem ++ "." ++ ext) ++ "." ++ "tmpl" := by
    rw [strAppend_assoc (stem ++ "." ++ ext) "." "tmpl"]
    rfl
  have h1 : stripExt (stem ++ "." ++ ext ++ ".tmpl") = stem ++ "." ++ ext := by
    rw [hfull]
    exact stripExt_splits (stem ++ "." ++ ext) "tmpl" hX (by decide) (by decide)
  have h2 : stripExt (stem ++ "." ++ ext) = stem :=
    stripExt_splits stem ext hstem hext hextdot
  have h3 : pyReplace (stem ++ "." ++ ext) "${context}" ctx = stem ++ "." ++ ext := by
    refine pyReplace_ctx_free _ _ ?_
    intro c hc
    rw [hXdata] at hc
    rcases List.mem_append.mp hc with h | h
    · exact hstemdollar c h
    · rcases List.mem_cons.mp h with rfl | h
      · decide
      · exact hextdollar c h
  have h4 : pyReplace "app" "${context}" ctx = "app" :=
    pyReplace_ctx_free _ _ (by decide)
  have h5 : pyReplace "domain" "${context}" ctx = "domain" :=
    pyReplace_ctx_free _ _ (by decide)
  have h6 : pyReplace "${context}" "${context}" ctx = ctx :=
    pyReplace_exact _ _ (by decide)
  have happly : applyCtxInPath
      ["app", "domain", "${context}", stem ++ "." ++ ext ++ ".tmpl"] ctx =
      ["app", "domain", ctx, stem ++ "." ++ ext] := by
    unfold applyCtxInPath
    rw [show mapLast stripExt
        ["app", "domain", "${context}", stem ++ "." ++ ext ++ ".tmpl"] =
        ["app", "domain", "${context}", stripExt (stem ++ "." ++ ext ++ ".tmpl")]
      from rfl, h1]
    show [pyReplace "app" "${context}" ctx, pyReplace "domain" "${context}" ctx,
      pyReplace "${context}" "${context}" ctx,
      pyReplace (stem ++ "." ++ ext) "${context}" ctx] = _
    rw [h3, h4, h5, h6]
  constructor
  · show mapLast stripExt (remapDstRelForPackage (applyCtxInPath
      ["app", "domain", "${context}", stem ++ "." ++ ext ++ ".tmpl"] ctx) pkg) = _
    rw [happly]
    rw [show remapDstRelForPackage ["app", "domain", ctx, stem ++ "." ++ ext] pkg =
      ["src", pkg, "domain", ctx, stem ++ "." ++ ext] from rfl]
    rw [show mapLast stripExt ["src", pkg, "domain", ctx, stem ++ "." ++ ext] =
      ["src", pkg, "domain", ctx, stripExt (stem ++ "." ++ ext)] from rfl]
    rw [h2]
  · show mapLast stripExt (remapDstRelForPackage
      ["app", "domain", stem ++ "." ++ ext ++ ".tmpl"] pkg) = _
    rw [show remapDstRelForPackage ["app", "domain", stem ++ "." ++ ext ++ ".tmpl"] pkg =
      ["src", pkg, "domain", stem ++ "." ++ ext ++ ".tmpl"] from rfl]
    rw [show mapLast stripExt ["src", pkg, "domain", stem ++ "." ++ ext ++ ".tmpl"] =
      ["src", pkg, "domain", stripExt (stem ++ "." ++ ext ++ ".tmpl")] from rfl]
    rw [h1]

/-- Witness for `ctx_template_double_suffix_strip`: the template
`app/domain/${context}/name.py.tmpl` with package `shop` and context
`order` is written to `src/shop/domain/order/name`, while
`app/domain/name.py.tmpl` is written to `src/shop/domain/name.py`. -/
theorem ctx_template_double_suffix_strip_witness :
    destRel ["app", "domain", "${context}", "name" ++ "." ++ "py" ++ ".tmpl"] "shop"
        (some "order") = ["src", "shop", "domain", "order", "name"] ∧
    destRel ["app", "domain", "name" ++ "." ++ "py" ++ ".tmpl"] "shop" none =
      ["src", "shop", "domain", "name" ++ "." ++ "py"] :=
  ctx_template_double_suffix_strip "name" "py" "shop" "order"
    (by decide) (by decide) (by decide) (by decide) (by decide)

-- ---------------------------------------------------------------------------
-- C8: placeholder resolution (`Template(...).safe_substitute` in `render_file`)
-- ---------------------------------------------------------------------------

/-- First character of a placeholder identifier (`[_a-zA-Z]`, the ASCII
identifier pattern of `string.Template`). -/
def isIdStart (c : Char) : Bool := c = '_' || c.isAlpha

/-- Continuation character of a placeholder identifier (`[_a-zA-Z0-9]`). -/
def isIdCont (c : Char) : Bool := isIdStart c || c.isDigit

/-- Greedily scan a maximal non-empty identifier from the front of the text,
returning it with the remaining text. -/
def takeIdent (l : List Char) : Option (List Char × List Char) :=
  match l with
  | [] => none
  | c :: rest =>
      if isIdStart c then
        some (c :: rest.takeWhile isIdCont, rest.dropWhile isIdCont)
      else none

/-- Is a character list a valid placeholder identifier? -/
def isValidIdent (id : List Char) : Bool :=
  match id with
  | [] => false
  | c :: r => isIdStart c && r.all isIdCont

/-- `safe_substitute` resolution of a braced placeholder: a recognized token
is replaced by its environment value, an unrecognized token is reproduced
verbatim (no exception is raised). -/
def resolveBraced (env : List (String × String)) (id : List Char) : List Char :=
  match lookupEnv env ⟨id⟩ with
  | some v => v.data
  | none => '$' :: '{' :: (id ++ ['}'])

/-- `safe_substitute` resolution of an unbraced `$name` placeholder. -/
def resolveNamed (env : List (String × String)) (id : List Char) : List Char :=
  match lookupEnv env ⟨id⟩ with
  | some v => v.data
  | none => '$' :: id

/-- One `safe_substitute` step at a delimiter: given the text following a
`$`, return the emitted text and the remaining text to scan.  `$$` emits
`$`; `${id}` and `$id` resolve through the environment, falling back to
the verbatim token; anything else (the `invalid` case) emits the lone `$`
and rescans from the following character — never an error. -/
def substStep (env : List (String × String)) (rest : List Char) :
    List Char × List Char :=
  match rest with
  | [] => (['$'], [])
  | c :: r =>
      if c = '$' then (['$'], r)
      else if c = '{' then
        match takeIdent r with
        | some (id, r₂) =>
            match r₂ with
            | x :: r₃ => if x = '}' then (resolveBraced env id, r₃) else (['$'], rest)
            | [] => (['$'], rest)
        | none => (['$'], rest)
      else
        match takeIdent rest with
        | some (id, r₂) => (resolveNamed env id, r₂)
        | none => (['$'], rest)

/-- Fuel-driven scanner of `safe_substitute`: copy ordinary characters,
handle each `$` through `substStep`.  The fuel is always instantiated with
the text length, which bounds the recursion depth (each step consumes at
least one character). -/
def safeSubstF (env : List (String × String)) : Nat → List Char → List Char
  | _, [] => []
  | 0, l => l
  | f + 1, c :: rest =>
      if c = '$' then (substStep env rest).1 ++ safeSubstF env f (substStep env rest).2
      else c :: safeSubstF env f rest

/-- `safe_substitute` on a character list. -/
def charSubst (env : List (String × String)) (l : List Char) : List Char :=
  safeSubstF env l.length l

/-- `Template(text).safe_substitute(env)`: total — defined for every
document and every environment. -/
def safeSubstitute (env : List (String × String)) (s : String) : String :=
  ⟨charSubst env s.data⟩

theorem dropWhile_length_le (p : Char → Bool) :
    ∀ (l : List Char), (l.dropWhile p).length ≤ l.length := by
  intro l
  induction l with
  | nil => simp
  | cons c t ih =>
    rw [List.dropWhile_cons]
    split
    · exact Nat.le_trans ih (Nat.le_succ _)
    · simp

theorem takeIdent_rest_lt (l id r : List Char) (h : takeIdent l = some (id, r)) :
    r.length < l.length := by
  cases l with
  | nil => simp [takeIdent] at h
  | cons c rest =>
    rw [takeIdent] at h
    split at h
    · have hr : r = rest.dropWhile isIdCont := by
        injection h with h'
        exact (congrArg Prod.snd h').symm
      rw [hr]
      exact Nat.lt_succ_of_le (dropWhile_length_le isIdCont rest)
    · exact absurd h (by simp)

theorem substStep_rest_le (env : List (String × String)) (rest : List Char) :
    (substStep env rest).2.length ≤ rest.length := by
  cases rest with
  | nil => simp [substStep]
  | cons c r =>
    rw [substStep]
    by_cases h1 : c = '$'
    · rw [if_pos h1]; simp
    · rw [if_neg h1]
      by_cases h2 : c = '{'
      · rw [if_pos h2]
        rcases htk : takeIdent r with _ | ⟨id, r₂⟩
        · simp
        · rcases r₂ with _ | ⟨x, r₃⟩
          · simp
          · by_cases hx : x = '}'
            · subst hx
              have := takeIdent_rest_lt r id ('}' :: r₃) htk
              simp only [List.length_cons] at this
              simp only [List.length_cons]
              simp
              omega
            · simp [hx]
      · rw [if_neg h2]
        rcases htk : takeIdent (c :: r) with _ | ⟨id, r₂⟩
        · simp
        · simp only []
          exact Nat.le_of_lt (takeIdent_rest_lt _ id r₂ htk)

theorem safeSubstF_nilinput (env : List (String × String)) (f : Nat) :
    safeSubstF env f [] = [] := by
  cases f <;> rfl

theorem safeSubstF_fuel (env : List (String × String)) :
    ∀ (f g : Nat) (l : List Char), l.length ≤ f → l.length ≤ g →
      safeSubstF env f l = safeSubstF env g l := by
  intro f
  induction f with
  | zero =>
    intro g l hf _
    have : l = [] := List.eq_nil_of_length_eq_zero (Nat.le_zero.mp hf)
    subst this
    rw [safeSubstF_nilinput, safeSubstF_nilinput]
  | succ f ih =>
    intro g l hf hg
    cases l with
    | nil => rw [safeSubstF_nilinput, safeSubstF_nilinput]
    | cons c rest =>
      cases g with
      | zero => simp at hg
      | succ g' =>
        rw [safeSubstF, safeSubstF]
        by_cases hc : c = '$'
        · rw [if_pos hc, if_pos hc]
          have hle := substStep_rest_le env rest
          have h1 : (substStep env rest).2.length ≤ f := by
            simp only [List.length_cons] at hf; omega
          have h2 : (substStep env rest).2.length ≤ g' := by
            simp only [List.length_cons] at hg; omega
          rw [ih g' _ h1 h2]
        · rw [if_neg hc, if_neg hc]
          have h1 : rest.length ≤ f := by
            simp only [List.length_cons] at hf; omega
          have h2 : rest.length ≤ g' := by
            simp only [List.length_cons] at hg; omega
          rw [ih g' rest h1 h2]

theorem span_all_stop (p : Char → Bool) :
    ∀ (l : List Char) (x : Char) (r : List Char),
      (∀ c ∈ l, p c = true) → p x = false →
        (l ++ x :: r).takeWhile p = l ∧ (l ++ x :: r).dropWhile p = x :: r := by
  intro l
  induction l with
  | nil =>
    intro x r _ hx
    constructor
    · rw [List.nil_append, List.takeWhile_cons, hx]; simp
    · rw [List.nil_append, List.dropWhile_cons, hx]; simp
  | cons c t ih =>
    intro x r h hx
    have hc : p c = true := h c (List.mem_cons_self c t)
    have iht := ih x r (fun d hd => h d (List.mem_cons_of_mem c hd)) hx
    constructor
    · rw [List.cons_append, List.takeWhile_cons, hc]
      simp only [if_pos]
      rw [iht.1]
    · rw [List.cons_append, List.dropWhile_cons, hc]
      simp only [if_pos]
      rw [iht.2]

theorem takeIdent_exact (id r : List Char) (x : Char)
    (hid : isValidIdent id = true) (hx : isIdCont x = false) :
    takeIdent (id ++ x :: r) = some (id, x :: r) := by
  cases id with
  | nil => simp [isValidIdent] at hid
  | cons c t =>
    have hands : isIdStart c = true ∧ ∀ d ∈ t, isIdCont d = true := by
      simpa [isValidIdent] using hid
    have hspan := span_all_stop isIdCont t x r hands.2 hx
    show takeIdent (c :: (t ++ x :: r)) = some (c :: t, x :: r)
    rw [takeIdent, if_pos hands.1, hspan.1, hspan.2]

theorem safeSubstF_copy (env : List (String × String)) :
    ∀ (pre l : List Char), (∀ c ∈ pre, c ≠ '$') →
      safeSubstF env (pre ++ l).length (pre ++ l) =
        pre ++ safeSubstF env l.length l := by
  intro pre
  induction pre with
  | nil => intro l _; simp
  | cons c p ih =>
    intro l h
    have hc : c ≠ '$' := h c (List.mem_cons_self c p)
    show safeSubstF env ((p ++ l).length + 1) (c :: (p ++ l)) =
      c :: (p ++ safeSubstF env l.length l)
    rw [safeSubstF, if_neg hc, ih l (fun d hd => h d (List.mem_cons_of_mem c hd))]

theorem safeSubst_braced_step (env : List (String × String)) (id suf : List Char)
    (hid : isValidIdent id = true) :
    safeSubstF env ('$' :: '{' :: (id ++ '}' :: suf)).length
        ('$' :: '{' :: (id ++ '}' :: suf)) =
      resolveBraced env id ++ safeSubstF env suf.length suf := by
  have htk : takeIdent (id ++ '}' :: suf) = some (id, '}' :: suf) :=
    takeIdent_exact id suf '}' hid (by decide)
  have hstep : substStep env ('{' :: (id ++ '}' :: suf)) = (resolveBraced env id, suf) := by
    rw [substStep, if_neg (by decide), if_pos rfl, htk]
    simp
  show safeSubstF env (('{' :: (id ++ '}' :: suf)).length + 1)
      ('$' :: ('{' :: (id ++ '}' :: suf))) = _
  rw [safeSubstF, if_pos rfl, hstep]
  congr 1
  exact safeSubstF_fuel env ('{' :: (id ++ '}' :: suf)).length suf.length suf
    (by simp; omega) (Nat.le_refl _)

/-- C8: placeholder resolution is total (`safeSubstitute` is a function, so
it never raises), replaces a recognized braced token by its environment
value and leaves an unrecognized token verbatim (`resolveBraced`), and
continues scanning the rest of the document; concretely, a bound
`${context}` is substituted while an unbound `${missing}` stays verbatim. -/
theorem safe_substitute_resolves (env : List (String × String))
    (pre id suf : List Char) (hpre : ∀ c ∈ pre, c ≠ '$')
    (hid : isValidIdent id = true) :
    safeSubstitute env ⟨pre ++ '$' :: '{' :: (id ++ '}' :: suf)⟩ =
      ⟨pre ++ (resolveBraced env id ++ charSubst env suf)⟩ ∧
    safeSubstitute [("context", "order")] "x ${context} y" = "x order y" ∧
    safeSubstitute [("context", "order")] "x ${missing} y" = "x ${missing} y" := by
  refine ⟨?_, by decide, by decide⟩
  unfold safeSubstitute charSubst
  congr 1
  rw [safeSubstF_copy env pre _ hpre]
  rw [safeSubst_braced_step env id suf hid]

/-- Witness for `safe_substitute_resolves`: body `ab${name}cd` with `name`
bound to `X`. -/
theorem safe_substitute_resolves_witness :
    safeSubstitute [("name", "X")]
        ⟨"ab".data ++ '$' :: '{' :: ("name".data ++ '}' :: "cd".data)⟩ =
      ⟨"ab".data ++ (resolveBraced [("name", "X")] "name".data ++
        charSubst [("name", "X")] "cd".data)⟩ ∧
    safeSubstitute [("context", "order")] "x ${context} y" = "x order y" ∧
    safeSubstitute [("context", "order")] "x ${missing} y" = "x ${missing} y" :=
  safe_substitute_resolves [("name", "X")] "ab".data "name".data "cd".data
    (by decide) (by decide)

-- ---------------------------------------------------------------------------
-- Closed instantiation witnesses
-- ---------------------------------------------------------------------------

/-- Witness for `path_projector_app_rewrite` at package `shop`. -/
theorem path_projector_app_rewrite_witness :
    remapDstRelForPackage ("app" :: "x" :: []) "shop" = "src" :: "shop" :: "x" :: [] ∧
    destRel ["app", "domain", "${context}", "entities.tmpl"] "shop" (some "order") =
      ["src", "shop", "domain", "order", "entities"] ∧
    forcePyDecision ["src", "shop", "domain", "order", "entities"] true "shop" = true :=
  path_projector_app_rewrite "shop" "x" []

/-- Witness for `normalize_contexts_spec` at a concrete input. -/
theorem normalize_contexts_spec_witness :
    normalizeContexts ["x"] none ≠ [] ∧ (normalizeContexts ["x"] none).Nodup :=
  ⟨(normalize_contexts_spec ["x"] none).2.2.2.1,
   (normalize_contexts_spec ["x"] none).2.2.2.2⟩

/-- Witness for `context_cap_is_py_capitalize` at the context `my_order`. -/
theorem context_cap_is_py_capitalize_witness :
    lookupEnv (renderEnvForContext [] "my_order") "ContextCap" =
      some (pyCapitalize "my_order") ∧
    lookupEnv (renderEnvForContext [] "my_order") "context" = some "my_order" ∧
    pyCapitalize "my_order" = "My_order" :=
  context_cap_is_py_capitalize [] "my_order"

/-- Witness for `license_stays_top_level` at package `shop`. -/
theorem license_stays_top_level_witness :
    remapDstRelForPackage ["LICENSE.tmpl"] "shop" = ["LICENSE.tmpl"] ∧
    destRel ["LICENSE.tmpl"] "shop" none = ["LICENSE"] ∧
    forcePyDecision ["LICENSE"] true "shop" = false :=
  license_stays_top_level "shop" true
